import Mathlib

/-!
Verification of the preview core of `bmmd-preview`: the bounded render cache
(`src/lib/preview/cache.ts`), the scroll-synchronization state machines
(`src/lib/preview/scroll-sync.ts` and the inline webview script in
`src/lib/preview/webview-content.ts`), the incremental DOM patch engine
(`updatePreviewContent` / `morphDom` in the webview script), the message
validator (`src/lib/preview/messages.ts`), and the update coordinator
(`MarkdownPreviewProvider`).

Conventions of the embedding:
* JS `Map<string, CacheEntry>` becomes an association list in insertion order
  (JS maps iterate in insertion order; `set` on an existing key keeps its
  position, `set` on a fresh key appends, `delete` removes in place).
* `Date.now()` timestamps are explicit `Nat` parameters threaded through each
  operation; age checks `now - entry.timestamp > ttl` are computed over `Int`
  so that a clock that went backwards behaves as in JS (the comparison is
  simply false).
* `currentMemorySize` is an `Int`, as the source freely adds and subtracts.
* The float guard `htmlSize > maxMemorySize * 0.2` is modelled by the exact
  rational inequality `5 * htmlSize > maxMemorySize`.
* The `while` eviction loop in `set` is modelled with explicit fuel
  `cache.length + 1`; since every loop iteration either removes one entry or
  leaves the state unchanged forever, fuel exhaustion (`none`) happens exactly
  when the JS loop diverges.
-/

/-- Embeds `CacheEntry` from `src/lib/preview/cache.ts`. -/
structure CacheEntry where
  html : String
  timestamp : Nat
  accessCount : Nat
  lastAccess : Nat
deriving DecidableEq, Repr

/-- Embeds the `RenderCache` instance state: the backing `Map` (insertion
ordered association list), the three configuration constants, and the running
memory total. -/
structure RenderCache where
  cache : List (String × CacheEntry)
  maxSize : Nat
  ttl : Nat
  maxMemorySize : Nat
  currentMemorySize : Int
deriving DecidableEq, Repr

/-- `new RenderCache(options)`: fresh empty map, zero memory. -/
def RenderCache.init (maxSize ttl maxMemorySize : Nat) : RenderCache :=
  ⟨[], maxSize, ttl, maxMemorySize, 0⟩

/-- `estimateSize`: UTF-16 estimate, 2 bytes per character plus 100 bytes of
object overhead. -/
def estimateSize (s : String) : Nat := s.length * 2 + 100

/-- JS `Map.get`: first (and, for a real map, only) binding of the key. -/
def mapGet (k : String) (l : List (String × CacheEntry)) : Option CacheEntry :=
  (l.find? (fun p => p.1 = k)).map Prod.snd

/-- JS `Map.set`: overwrite in place when present, append when absent. -/
def mapSet (k : String) (v : CacheEntry) :
    List (String × CacheEntry) → List (String × CacheEntry)
  | [] => [(k, v)]
  | (k', v') :: rest =>
      if k' = k then (k, v) :: rest else (k', v') :: mapSet k v rest

/-- JS `Map.delete`: remove the binding of the key, keeping order. -/
def mapDelete (k : String) :
    List (String × CacheEntry) → List (String × CacheEntry)
  | [] => []
  | (k', v') :: rest =>
      if k' = k then rest else (k', v') :: mapDelete k rest

/-- The scan in `evictLeastRecentlyUsed`: fold over the entries keeping the
current LRU candidate; an entry strictly earlier (`<`) than the candidate
replaces it, so the first entry with the minimal `lastAccess` wins. -/
def lruScan (acc : Option (String × Nat)) :
    List (String × CacheEntry) → Option (String × Nat)
  | [] => acc
  | (k, e) :: rest =>
      lruScan
        (match acc with
         | none => some (k, e.lastAccess)
         | some (k0, t0) =>
             if e.lastAccess < t0 then some (k, e.lastAccess) else some (k0, t0))
        rest

/-- The key selected by the `evictLeastRecentlyUsed` scan. -/
def findLRU (l : List (String × CacheEntry)) : Option String :=
  (lruScan none l).map Prod.fst

/-- `evictLeastRecentlyUsed`: the guard `if (lruKey)` is JS truthiness, so both
`undefined` and the empty string skip the deletion. -/
def RenderCache.evictLeastRecentlyUsed (c : RenderCache) : RenderCache :=
  match findLRU c.cache with
  | none => c
  | some k =>
      if k = "" then c
      else
        match mapGet k c.cache with
        | none => c
        | some e =>
            { c with
              cache := mapDelete k c.cache
              currentMemorySize := c.currentMemorySize - estimateSize e.html }

/-- The `while` loop of `set`, with explicit fuel. Returns the state after the
evictions together with `true` when the insertion may proceed, `false` when the
loop aborted via the empty-cache configuration warning; `none` when the fuel
ran out (the JS loop diverges). -/
def setLoop : Nat → RenderCache → Nat → Option (RenderCache × Bool)
  | 0, _, _ => none
  | fuel + 1, c, hsz =>
      if c.cache.length ≥ c.maxSize ∨ c.currentMemorySize + hsz > c.maxMemorySize then
        if c.cache.length = 0 then some (c, false)
        else setLoop fuel c.evictLeastRecentlyUsed hsz
      else some (c, true)

/-- `set(key, html)`. `none` models divergence of the eviction loop. -/
def RenderCache.set (now : Nat) (key html : String) (c : RenderCache) :
    Option RenderCache :=
  let hsz := estimateSize html
  if 5 * hsz > c.maxMemorySize then some c
  else
    match setLoop (c.cache.length + 1) c hsz with
    | none => none
    | some (c', false) => some c'
    | some (c', true) =>
        let c₂ :=
          match mapGet key c'.cache with
          | some old =>
              { c' with currentMemorySize := c'.currentMemorySize - estimateSize old.html }
          | none => c'
        some
          { c₂ with
            cache := mapSet key ⟨html, now, 1, now⟩ c₂.cache
            currentMemorySize := c₂.currentMemorySize + hsz }

/-- `get(key)`: lazy expiry deletes the entry but (as in the source) does NOT
update `currentMemorySize`; a hit bumps `accessCount` and `lastAccess`. -/
def RenderCache.get (now : Nat) (key : String) (c : RenderCache) :
    Option String × RenderCache :=
  match mapGet key c.cache with
  | none => (none, c)
  | some e =>
      if (now : Int) - e.timestamp > c.ttl then
        (none, { c with cache := mapDelete key c.cache })
      else
        (some e.html,
         { c with
           cache := mapSet key { e with accessCount := e.accessCount + 1, lastAccess := now } c.cache })

/-- `has(key)`: same lazy expiry as `get`, without touching access metadata. -/
def RenderCache.has (now : Nat) (key : String) (c : RenderCache) :
    Bool × RenderCache :=
  match mapGet key c.cache with
  | none => (false, c)
  | some e =>
      if (now : Int) - e.timestamp > c.ttl then
        (false, { c with cache := mapDelete key c.cache })
      else (true, c)

/-- `delete(key)`: removes the entry and subtracts its estimated size. -/
def RenderCache.del (key : String) (c : RenderCache) : RenderCache :=
  match mapGet key c.cache with
  | none => c
  | some e =>
      { c with
        cache := mapDelete key c.cache
        currentMemorySize := c.currentMemorySize - estimateSize e.html }

/-- `clear()`. -/
def RenderCache.clear (c : RenderCache) : RenderCache :=
  { c with cache := [], currentMemorySize := 0 }

/-- `cleanExpired()`: sweep all expired entries, subtracting each size;
returns the number removed. Deleting while iterating a JS map still visits
every remaining entry, so a filter is faithful. -/
def RenderCache.cleanExpired (now : Nat) (c : RenderCache) : Nat × RenderCache :=
  let expired := c.cache.filter (fun p => (now : Int) - p.2.timestamp > c.ttl)
  (expired.length,
   { c with
     cache := c.cache.filter (fun p => ¬((now : Int) - p.2.timestamp > c.ttl))
     currentMemorySize :=
       c.currentMemorySize - (expired.map (fun p => (estimateSize p.2.html : Int))).sum })

/-- The record returned by `getStats()`. -/
structure CacheStats where
  size : Nat
  maxSize : Nat
  ttl : Nat
  memorySize : Int
  maxMemorySize : Nat
  memoryUsagePercent : ℚ
deriving DecidableEq, Repr

/-- `getStats()`. -/
def RenderCache.getStats (c : RenderCache) : CacheStats :=
  ⟨c.cache.length, c.maxSize, c.ttl, c.currentMemorySize, c.maxMemorySize,
   ((c.currentMemorySize : ℚ) / (c.maxMemorySize : ℚ)) * 100⟩

/-- One public cache operation, with its `Date.now()` timestamp where the
source reads the clock. -/
inductive CacheOp
  | get (now : Nat) (key : String)
  | set (now : Nat) (key html : String)
  | has (now : Nat) (key : String)
  | del (key : String)
  | clear
  | cleanExpired (now : Nat)
deriving DecidableEq, Repr

/-- Apply one operation; `none` when `set` diverges. -/
def applyOp : CacheOp → RenderCache → Option RenderCache
  | .get now k, c => some (c.get now k).2
  | .set now k h, c => c.set now k h
  | .has now k, c => some (c.has now k).2
  | .del k, c => some (c.del k)
  | .clear, c => some c.clear
  | .cleanExpired now, c => some (c.cleanExpired now).2

/-- Apply a whole sequence of operations. -/
def applySeq (ops : List CacheOp) (c : RenderCache) : Option RenderCache :=
  ops.foldl (fun acc op => acc.bind (applyOp op)) (some c)

/-!
## Scroll synchronization

`ScrollSyncManager.handleWebviewScroll` (src/lib/preview/scroll-sync.ts) is a
pure function of the two origin flags plus the ambient editor/configuration;
`percent` and `line` are JS numbers, modelled as rationals. The returned
option is the `revealRange` target line (`none` when one of the guards
returned early).
-/

/-- The two origin flags of `ScrollSyncManager`. -/
structure ScrollSyncState where
  isScrollingFromEditor : Bool
  isScrollingFromWebview : Bool
deriving DecidableEq, Repr

/-- `handleWebviewScroll(percent, line)`: guards (active editor for this
document, `bmmd.enableScrollSync`, editor-origin suppression flag), then the
target line is the supplied `line` when present, otherwise
`Math.floor(percent * (totalLines - 1))`, clamped into `[0, totalLines - 1]`,
and the webview-origin flag is raised (its 150 ms reset timer lives in the
event model below). -/
def handleWebviewScroll (editorActive enableScrollSync : Bool) (totalLines : Nat)
    (percent : ℚ) (line : Option ℚ) (s : ScrollSyncState) :
    ScrollSyncState × Option ℚ :=
  if !editorActive then (s, none)
  else if !enableScrollSync then (s, none)
  else if s.isScrollingFromEditor then (s, none)
  else
    let targetLine : ℚ :=
      match line with
      | some l => l
      | none => (⌊percent * ((totalLines : ℚ) - 1)⌋ : ℚ)
    let clamped : ℚ := max 0 (min targetLine ((totalLines : ℚ) - 1))
    ({ s with isScrollingFromWebview := true }, some clamped)

/-!
### Discrete-event model of the bidirectional scroll loop

Both sides keep a suppression flag that a plain `setTimeout(…, 150)` clears;
neither side cancels earlier reset timeouts, so the pending reset deadlines
are a list. Each side also keeps a single trailing-edge 100 ms debounce timer
(those ARE cancelled on re-trigger, hence an `Option`). Message delivery
between the two processes is modelled as immediate (one possible scheduling
of the asynchronous `postMessage`); the echo of an applied surface scroll is
an environment-chosen `containerScroll` event, so its timing stays universally
quantified.
-/

/-- Combined state of `ScrollSyncManager` (extension side) and the inline
webview script's scroll code. -/
structure SyncState where
  extFromEditor : Bool
  extFromWebview : Bool
  /-- the single editor-side debounce timer: deadline and the first visible
  line captured for `syncWebviewScroll` -/
  extDebounce : Option (Nat × Nat)
  /-- pending 150 ms resets of `extFromWebview` (never cancelled) -/
  extResets : List Nat
  wvFromEditor : Bool
  /-- pending 150 ms resets of `wvFromEditor` (never cancelled) -/
  wvResets : List Nat
  /-- the single webview-side debounce timer for outbound scroll messages -/
  wvDebounce : Option Nat
deriving DecidableEq, Repr

/-- All flags clear, no timers. -/
def SyncState.init : SyncState := ⟨false, false, none, [], false, [], none⟩

/-- Observable movements: the surface's `container.scrollTop = …` assignment
and the source view's `editor.revealRange` call. -/
inductive SyncOut
  | applyScrollTop (t : Nat)
  | revealLine (t : Nat) (line : ℚ)
deriving DecidableEq, Repr

/-- Ambient configuration for a scroll scenario: whether the active editor
shows the synced document, the `bmmd.enableScrollSync` setting, the document
line count, and the scroll fraction the webview reports when its debounce
fires. -/
structure SyncConfig where
  editorActive : Bool
  enableScrollSync : Bool
  totalLines : Nat
  wvPercent : ℚ
deriving DecidableEq, Repr

/-- The four timer queues. -/
inductive TimerKind
  | extDeb
  | wvDeb
  | extReset
  | wvReset
deriving DecidableEq, Repr

/-- All currently pending timers, as (deadline, kind) pairs. -/
def SyncState.timers (s : SyncState) : List (Nat × TimerKind) :=
  (match s.extDebounce with | some (d, _) => [(d, .extDeb)] | none => []) ++
  (match s.wvDebounce with | some d => [(d, .wvDeb)] | none => []) ++
  s.extResets.map (fun d => (d, .extReset)) ++
  s.wvResets.map (fun d => (d, .wvReset))

/-- First pair with the minimal deadline (fixed tie order models the event
loop's FIFO order abstractly). -/
def pickMinTimer : List (Nat × TimerKind) → Option (Nat × TimerKind)
  | [] => none
  | x :: xs =>
      match pickMinTimer xs with
      | none => some x
      | some y => if x.1 ≤ y.1 then some x else some y

/-- Remove the first occurrence of a deadline from a reset queue. -/
def removeDeadline (d : Nat) : List Nat → List Nat
  | [] => []
  | x :: xs => if x = d then xs else x :: removeDeadline d xs

/-- Fire one timer at its deadline `d`:
* editor debounce (`syncWebviewScroll`): posts `scrollFromEditor` which the
  webview's `handleScrollFromEditor` applies (raise `wvFromEditor`, schedule
  its reset at `d + 150`, set `scrollTop` = the applied movement), then the
  callback clears `extFromEditor`;
* webview debounce: posts `scroll` with the surface fraction, which
  `handleWebviewScroll` receives; on success it reveals the target line,
  raises `extFromWebview` and schedules its reset at `d + 150`;
* a reset timer clears its flag. -/
def fireTimer (cfg : SyncConfig) (d : Nat) (k : TimerKind) (s : SyncState) :
    SyncState × List SyncOut :=
  match k with
  | .extDeb =>
      ({ s with
         extDebounce := none
         extFromEditor := false
         wvFromEditor := true
         wvResets := s.wvResets ++ [d + 150] },
       [.applyScrollTop d])
  | .wvDeb =>
      let s₁ := { s with wvDebounce := none }
      let res := handleWebviewScroll cfg.editorActive cfg.enableScrollSync
        cfg.totalLines cfg.wvPercent none ⟨s₁.extFromEditor, s₁.extFromWebview⟩
      match res.2 with
      | some line =>
          ({ s₁ with
             extFromWebview := true
             extResets := s₁.extResets ++ [d + 150] },
           [.revealLine d line])
      | none => (s₁, [])
  | .extReset =>
      ({ s with extFromWebview := false, extResets := removeDeadline d s.extResets }, [])
  | .wvReset =>
      ({ s with wvFromEditor := false, wvResets := removeDeadline d s.wvResets }, [])

/-- Fire every timer whose deadline is ≤ `t`, earliest first. -/
def fireDue (cfg : SyncConfig) : Nat → Nat → SyncState → SyncState × List SyncOut
  | 0, _, s => (s, [])
  | fuel + 1, t, s =>
      match pickMinTimer s.timers with
      | some (d, k) =>
          if d ≤ t then
            let r := fireTimer cfg d k s
            let r' := fireDue cfg fuel t r.1
            (r'.1, r.2 ++ r'.2)
          else (s, [])
      | none => (s, [])

/-- External stimuli: a visible-range change of the source editor (carrying
the first visible line) and a scroll event of the surface container (user
initiated or the echo of an applied scroll). -/
inductive SyncEvent
  | editorScroll (t : Nat) (line : Nat)
  | containerScroll (t : Nat)
deriving DecidableEq, Repr

/-- Time of an event. -/
def SyncEvent.time : SyncEvent → Nat
  | .editorScroll t _ => t
  | .containerScroll t => t

/-- Time of an observable movement. -/
def SyncOut.time : SyncOut → Nat
  | .applyScrollTop t => t
  | .revealLine t _ => t

/-- Whether an observable movement moves the SOURCE view. -/
def SyncOut.isReveal : SyncOut → Bool
  | .applyScrollTop _ => false
  | .revealLine _ _ => true

/-- Handle one event after firing all timers due before it:
* editor scroll (`onDidChangeTextEditorVisibleRanges`): ignored unless the
  active editor shows the document, the webview-origin flag is clear and sync
  is enabled; otherwise raise `extFromEditor` and (re)start the 100 ms
  debounce;
* container scroll: ignored while `wvFromEditor` is set, otherwise (re)start
  the webview's 100 ms debounce. -/
def syncStep (cfg : SyncConfig) (fuel : Nat) (ev : SyncEvent) (s : SyncState) :
    SyncState × List SyncOut :=
  let fired := fireDue cfg fuel ev.time s
  let s₁ := fired.1
  match ev with
  | .editorScroll t line =>
      if !cfg.editorActive then (s₁, fired.2)
      else if s₁.extFromWebview then (s₁, fired.2)
      else if !cfg.enableScrollSync then (s₁, fired.2)
      else
        ({ s₁ with extFromEditor := true, extDebounce := some (t + 100, line) }, fired.2)
  | .containerScroll _ =>
      if s₁.wvFromEditor then (s₁, fired.2)
      else ({ s₁ with wvDebounce := some (ev.time + 100) }, fired.2)

/-- Run a list of (chronologically ordered) events, then flush all timers due
up to the horizon. -/
def runSync (cfg : SyncConfig) (fuel : Nat) (events : List SyncEvent)
    (horizon : Nat) (s : SyncState) : SyncState × List SyncOut :=
  match events with
  | [] => fireDue cfg fuel horizon s
  | ev :: rest =>
      let r := syncStep cfg fuel ev s
      let r' := runSync cfg fuel rest horizon r.1
      (r'.1, r.2 ++ r'.2)

/-!
## Update coordinator (`MarkdownPreviewProvider`)

`updatePreview` is the trailing-edge 100 ms debounce; `doUpdatePreview`
renders the current document and pushes an `update` message; `switchDocument`
replaces the current document and calls `doUpdatePreview` directly. Only the
fields these paths touch are modelled (panel presence, current document,
pending debounce deadline); documents are identified by numbers. -/
structure ProviderState where
  panel : Bool
  currentDocument : Option Nat
  updateTimeout : Option Nat
deriving DecidableEq, Repr

/-- The observable effect of `doUpdatePreview`: render the document and push
the result to the webview. -/
inductive ProviderOut
  | renderAndPush (doc : Nat) (t : Nat)
deriving DecidableEq, Repr

/-- `doUpdatePreview`: no-op without a panel or current document. -/
def doUpdatePreview (t : Nat) (s : ProviderState) :
    ProviderState × Option ProviderOut :=
  if s.panel then
    match s.currentDocument with
    | some d => (s, some (.renderAndPush d t))
    | none => (s, none)
  else (s, none)

/-- `updatePreview(document?)`: skip when the argument is a different document
than the current one; otherwise cancel and restart the 100 ms debounce. -/
def updatePreview (t : Nat) (docArg : Option Nat) (s : ProviderState) :
    ProviderState :=
  match docArg, s.currentDocument with
  | some d, some d' =>
      if d ≠ d' then s
      else if s.panel then { s with updateTimeout := some (t + 100) } else s
  | _, _ =>
      if s.panel ∧ s.currentDocument ≠ none then
        { s with updateTimeout := some (t + 100) }
      else s

/-- `switchDocument(document)`: requires a panel, replaces the current
document and immediately runs `doUpdatePreview`. The source never touches
`updateTimeout` here. -/
def switchDocument (t : Nat) (doc : Nat) (s : ProviderState) :
    ProviderState × Option ProviderOut :=
  if s.panel then doUpdatePreview t { s with currentDocument := some doc }
  else (s, none)

/-!
## Message protocol (`src/lib/preview/messages.ts`)

JS values are modelled structurally; `typeof x === 'number'` / `'string'`
become constructor tests. Every check the validators perform looks at
top-level fields only, so field values are primitives with nested objects
kept opaque (`pObj`). Property access on `null`/`undefined` throws in JS; the
model returns `undefined` and no theorem exercises those inputs. -/
inductive JSPrim
  | pNull
  | pUndefined
  | pBool (b : Bool)
  | pNum (q : ℚ)
  | pStr (s : String)
  | pObj
deriving DecidableEq, Repr

/-- A candidate message value. -/
inductive JSValue
  | vNull
  | vUndefined
  | vBool (b : Bool)
  | vNum (q : ℚ)
  | vStr (s : String)
  | vObj (fields : List (String × JSPrim))
deriving DecidableEq, Repr

/-- Property read `o[name]`. -/
def getField (o : JSValue) (name : String) : JSPrim :=
  match o with
  | .vObj fs =>
      match fs.find? (fun p => p.1 = name) with
      | some p => p.2
      | none => .pUndefined
  | _ => .pUndefined

/-- `typeof v === 'number'`. -/
def isNumber : JSPrim → Bool
  | .pNum _ => true
  | _ => false

/-- `typeof v === 'string'`. -/
def isString : JSPrim → Bool
  | .pStr _ => true
  | _ => false

/-- `MessageValidator.isWebviewToExtensionMessage`: the gate
`!message || typeof message !== 'object'` admits exactly non-null objects,
then a `switch` on `message.type`. -/
def isWebviewToExtensionMessage (m : JSValue) : Bool :=
  match m with
  | .vObj _ =>
      match getField m "type" with
      | .pStr "ready" => true
      | .pStr "scroll" =>
          isNumber (getField m "percent") &&
            (getField m "line" = JSPrim.pUndefined || isNumber (getField m "line"))
      | .pStr "openExternal" => isString (getField m "url")
      | .pStr "error" => isString (getField m "message")
      | .pStr "changeMarkdownStyle" => isString (getField m "style")
      | .pStr "changeCodeTheme" => isString (getField m "theme")
      | _ => false
  | _ => false

/-- `MessageValidator.isExtensionToWebviewMessage`. -/
def isExtensionToWebviewMessage (m : JSValue) : Bool :=
  match m with
  | .vObj _ =>
      match getField m "type" with
      | .pStr "update" => isString (getField m "html")
      | .pStr "error" => isString (getField m "message")
      | .pStr "scrollFromEditor" =>
          isNumber (getField m "percent") && isNumber (getField m "line")
      | .pStr "config" =>
          isString (getField m "markdownStyle") && isString (getField m "codeTheme")
      | _ => false
  | _ => false

/-- The required-field shape of `scrollFromSource` as written in the spec's
protocol table: `percent: number[0,1], line: integer` (a rational with
denominator 1 is an integer). Second definition of the shape, following the
spec's words, to compare with the validator embedded from the source. -/
def specScrollFromSourceShape (m : JSValue) : Bool :=
  decide (getField m "type" = JSPrim.pStr "scrollFromEditor") &&
  (match getField m "percent" with
   | .pNum q => decide (0 ≤ q ∧ q ≤ 1)
   | _ => false) &&
  (match getField m "line" with
   | .pNum q => decide (q.den = 1)
   | _ => false)

/-- What the inline webview script's `window.addEventListener('message', …)`
dispatches: a bare `switch (message.type)` with NO validation of the payload
fields. -/
inductive WebviewDispatch
  | update (html : JSPrim)
  | error (msg : JSPrim)
  | scrollFromEditor (percent line : JSPrim)
  | config (style theme : JSPrim)
  | warnUnknown
deriving DecidableEq, Repr

/-- The webview-side inbound message listener. -/
def webviewOnMessage (m : JSValue) : WebviewDispatch :=
  match getField m "type" with
  | .pStr "update" => .update (getField m "html")
  | .pStr "error" => .error (getField m "message")
  | .pStr "scrollFromEditor" =>
      .scrollFromEditor (getField m "percent") (getField m "line")
  | .pStr "config" =>
      .config (getField m "markdownStyle") (getField m "codeTheme")
  | _ => .warnUnknown

/-- What `MarkdownPreviewProvider.handleWebviewMessage` does with a message,
beyond the scroll-state change which is returned separately. -/
inductive HandlerAction
  | warnInvalid
  | sendConfigAndUpdate
  | scrollDispatched
  | openExternal (url : String)
  | showError (msg : String)
  | changeStyle (s : String)
  | changeTheme (s : String)
  | warnUnknownType
  | noOp
deriving DecidableEq, Repr

/-- `MarkdownPreviewProvider.handleWebviewMessage`: validate first and discard
with a warning on failure; otherwise dispatch on the type. A `scroll` message
reaches `ScrollSyncManager.handleWebviewScroll` only when a manager exists and
`percent !== undefined`. -/
def handleWebviewMessage (editorActive enableScrollSync : Bool)
    (totalLines : Nat) (hasScrollMgr : Bool) (m : JSValue)
    (s : ScrollSyncState) : ScrollSyncState × HandlerAction :=
  if !isWebviewToExtensionMessage m then (s, .warnInvalid)
  else
    match getField m "type" with
    | .pStr "ready" => (s, .sendConfigAndUpdate)
    | .pStr "scroll" =>
        match getField m "percent" with
        | .pNum q =>
            if hasScrollMgr then
              ((handleWebviewScroll editorActive enableScrollSync totalLines q
                  (match getField m "line" with | .pNum l => some l | _ => none)
                  s).1,
               .scrollDispatched)
            else (s, .noOp)
        | _ => (s, .noOp)
    | .pStr "openExternal" =>
        (s, match getField m "url" with | .pStr u => .openExternal u | _ => .noOp)
    | .pStr "error" =>
        (s, match getField m "message" with | .pStr e => .showError e | _ => .noOp)
    | .pStr "changeMarkdownStyle" =>
        (s, match getField m "style" with | .pStr st => .changeStyle st | _ => .noOp)
    | .pStr "changeCodeTheme" =>
        (s, match getField m "theme" with | .pStr th => .changeTheme th | _ => .noOp)
    | _ => (s, .warnUnknownType)

/-!
## Incremental patch engine (`updatePreviewContent` / `morphDom`)

The DOM is a tree of text nodes and elements (tag, attribute list in document
order, children). `node.innerHTML` reads are the serialization of the
children; the incoming HTML string is represented by the parsed tree, with
its string length recovered by serializing (so the embedding covers every
string that is the serialization of some tree). Attribute lists follow the
DOM's semantics: `setAttribute` of a present name updates in place,
a new name appends, removal keeps order. -/
inductive DomNode
  | text (s : String)
  | elem (tag : String) (attrs : List (String × String)) (children : List DomNode)

/-- Serialize one attribute list: ` name="value"` for each attribute. -/
def serializeAttrs (attrs : List (String × String)) : String :=
  attrs.foldl (fun acc p => acc ++ " " ++ p.1 ++ "=\"" ++ p.2 ++ "\"") ""

mutual

/-- Serialization of a node (what `outerHTML` of the node would be). -/
def serializeNode : DomNode → String
  | .text s => s
  | .elem tag attrs children =>
      "<" ++ tag ++ serializeAttrs attrs ++ ">" ++ serializeList children ++
        "</" ++ tag ++ ">"

/-- Serialization of a child list (what `innerHTML` of the parent reads). -/
def serializeList : List DomNode → String
  | [] => ""
  | n :: rest => serializeNode n ++ serializeList rest

end

/-- `getAttribute`. -/
def attrLookup (a : List (String × String)) (n : String) : Option String :=
  (a.find? (fun p => p.1 = n)).map Prod.snd

/-- The two attribute loops of `morphDom`: first remove the old attributes
absent from the new node (keeping the order of the survivors), then
add/update from the new node (updates in place, additions appended in the new
node's order). -/
def morphAttrs (fa ta : List (String × String)) : List (String × String) :=
  (fa.filter (fun p => (attrLookup ta p.1).isSome)).map
      (fun p => (p.1, (attrLookup ta p.1).getD p.2)) ++
    ta.filter (fun p => (attrLookup fa p.1).isNone)

mutual

/-- `morphDom(fromNode, toNode)`, as the value the from-position holds
afterwards: differing node types replace with a clone of the new node; text
nodes take the new value; elements keep their OWN tag (the source never
compares tag names), take the reconciled attributes, and reconcile children —
wholesale via `innerHTML` when the child-count difference exceeds 10,
positionally otherwise. -/
def morphDom : DomNode → DomNode → DomNode
  | .text _, .text s' => .text s'
  | .text _, .elem tt ta tc => .elem tt ta tc
  | .elem _ _ _, .text s' => .text s'
  | .elem ft fa fc, .elem _ ta tc =>
      .elem ft (morphAttrs fa ta)
        (if (10 : Int) < |(fc.length : Int) - (tc.length : Int)| then tc
         else morphChildren fc tc)

/-- Positional child reconciliation: morph up to the common length, append
clones of extra new children, drop extra old children. -/
def morphChildren : List DomNode → List DomNode → List DomNode
  | [], tc => tc
  | _ :: _, [] => []
  | f :: fs, t :: ts => morphDom f t :: morphChildren fs ts

end

/-- `updatePreviewContent(html)` acting on the preview container element:
direct assignment when the container is empty, wholesale replacement when the
length-change ratio exceeds 0.5, incremental morph otherwise (against the
temporary `div` holding the parsed new content, which carries no attributes).
In JS a 0/0 ratio is `NaN` and fails the `> 0.5` test; rational division by
zero yields 0 and picks the same branch. -/
def updatePreviewContent (newChildren : List DomNode) (container : DomNode) :
    DomNode :=
  match container with
  | .text s => .text s
  | .elem tag attrs children =>
      if children.isEmpty then .elem tag attrs newChildren
      else
        let oldLength := (serializeList children).length
        let newLength := (serializeList newChildren).length
        let ratio : ℚ :=
          |(newLength : ℚ) - (oldLength : ℚ)| / ((max oldLength newLength : Nat) : ℚ)
        if (1 : ℚ) / 2 < ratio then .elem tag attrs newChildren
        else morphDom (.elem tag attrs children) (.elem "div" [] newChildren)

/-- Attribute-name uniqueness, which every tree coming from a real DOM has
(an element cannot carry two attributes of the same name). -/
def wfAttrs (a : List (String × String)) : Bool :=
  decide (a.map Prod.fst).Nodup

mutual

/-- A DOM-realizable node: attribute names unique, recursively. -/
def wfNode : DomNode → Bool
  | .text _ => true
  | .elem _ a c => wfAttrs a && wfForest c

/-- All nodes of a forest DOM-realizable. -/
def wfForest : List DomNode → Bool
  | [] => true
  | n :: rest => wfNode n && wfForest rest

end

/-!
## Derived notions used in claim statements
-/

/-- Spec wording of the eviction choice: the least `lastAccessedAt`, ties
broken by iteration order of the store (the earliest such entry). Stated as a
recursive first-minimum so it can be compared with the source's scan. -/
def specFirstMin : List (String × Nat) → Option (String × Nat)
  | [] => none
  | x :: xs =>
      match specFirstMin xs with
      | none => some x
      | some y => if x.2 ≤ y.2 then some x else some y

/-- Inserting a batch of (key, html, time) triples via `set`. -/
def insertOps (items : List (String × String × Nat)) : List CacheOp :=
  items.map (fun x => CacheOp.set x.2.2 x.1 x.2.1)

/-- The keys of a batch. -/
def itemsKeys (items : List (String × String × Nat)) : List String :=
  items.map (fun x => x.1)

/-- Total estimated size of a batch. -/
def itemsSizeSum (items : List (String × String × Nat)) : Int :=
  (items.map (fun x => (estimateSize x.2.1 : Int))).sum

/-- The cache entries a batch creates (timestamp and `lastAccess` equal to the
insertion time, `accessCount` 1). -/
def entriesOf (items : List (String × String × Nat)) :
    List (String × CacheEntry) :=
  items.map (fun x => (x.1, ⟨x.2.1, x.2.2, 1, x.2.2⟩))

/-!
# Theorems
-/

/-- Helper: folding the operation sequence over a dead (`none`) accumulator
stays dead. -/
theorem foldl_bind_none (ops : List CacheOp) :
    ops.foldl (fun acc op => acc.bind (applyOp op)) none = none := by
  induction ops with
  | nil => rfl
  | cons op ops ih => simpa using ih

/-- Helper: eviction never increases the memory total and never touches the
configured ceiling. -/
theorem evict_spec (c : RenderCache) :
    c.evictLeastRecentlyUsed.currentMemorySize ≤ c.currentMemorySize ∧
    c.evictLeastRecentlyUsed.maxMemorySize = c.maxMemorySize := by
  unfold RenderCache.evictLeastRecentlyUsed
  cases findLRU c.cache with
  | none => exact ⟨le_refl _, rfl⟩
  | some k =>
      dsimp only
      by_cases hk : k = ""
      · simp [hk]
      · cases hget : mapGet k c.cache with
        | none => simp [hk, hget]
        | some e =>
            rw [if_neg hk]
            refine ⟨?_, rfl⟩
            dsimp only
            have hnn : (0 : Int) ≤ (estimateSize e.html : Int) := by positivity
            omega

/-- Helper: if the eviction loop returns, the memory total has not grown, the
ceiling is untouched, and on the insert path there is room for the new entry. -/
theorem setLoop_spec (fuel : Nat) :
    ∀ (c : RenderCache) (hsz : Nat) (c' : RenderCache) (b : Bool),
      setLoop fuel c hsz = some (c', b) →
      c'.currentMemorySize ≤ c.currentMemorySize ∧
      c'.maxMemorySize = c.maxMemorySize ∧
      (b = true → c'.currentMemorySize + hsz ≤ c'.maxMemorySize) := by
  induction fuel with
  | zero => intro c hsz c' b h; simp [setLoop] at h
  | succ n ih =>
      intro c hsz c' b h
      rw [setLoop] at h
      split at h
      · split at h
        · cases h
          exact ⟨le_refl _, rfl, by simp⟩
        · obtain ⟨h1, h2, h3⟩ := ih _ hsz c' b h
          obtain ⟨e1, e2⟩ := evict_spec c
          exact ⟨le_trans h1 e1, h2.trans e2, h3⟩
      · cases h
        rename_i hcond
        push_neg at hcond
        exact ⟨le_refl _, rfl, fun _ => hcond.2⟩

/-- Helper: every single successful cache operation preserves the memory
ceiling invariant. -/
theorem applyOp_preserves (op : CacheOp) (c c' : RenderCache)
    (hP : c.currentMemorySize ≤ c.maxMemorySize)
    (h : applyOp op c = some c') :
    c'.currentMemorySize ≤ c'.maxMemorySize := by
  cases op with
  | get now k =>
      simp only [applyOp, Option.some_inj] at h
      subst h
      unfold RenderCache.get
      cases mapGet k c.cache with
      | none => exact hP
      | some e =>
          dsimp only
          split <;> exact hP
  | has now k =>
      simp only [applyOp, Option.some_inj] at h
      subst h
      unfold RenderCache.has
      cases mapGet k c.cache with
      | none => exact hP
      | some e =>
          dsimp only
          split <;> exact hP
  | del k =>
      simp only [applyOp, Option.some_inj] at h
      subst h
      unfold RenderCache.del
      cases mapGet k c.cache with
      | none => exact hP
      | some e =>
          dsimp only
          have : (0 : Int) ≤ (estimateSize e.html : Int) := by positivity
          omega
  | clear =>
      simp only [applyOp, Option.some_inj] at h
      subst h
      unfold RenderCache.clear
      dsimp only
      positivity
  | cleanExpired now =>
      simp only [applyOp, Option.some_inj] at h
      subst h
      unfold RenderCache.cleanExpired
      dsimp only
      have hnn : (0 : Int) ≤
          (((c.cache.filter fun p => (now : Int) - p.2.timestamp > c.ttl).map
            fun p => (estimateSize p.2.html : Int)).sum) := by
        apply List.sum_nonneg
        intro x hx
        simp only [List.mem_map] at hx
        obtain ⟨p, -, rfl⟩ := hx
        positivity
      omega
  | set now k html =>
      simp only [applyOp] at h
      unfold RenderCache.set at h
      dsimp only at h
      by_cases hguard : 5 * estimateSize html > c.maxMemorySize
      · rw [if_pos hguard] at h
        cases h
        exact hP
      · rw [if_neg hguard] at h
        cases hl : setLoop (c.cache.length + 1) c (estimateSize html) with
        | none => rw [hl] at h; cases h
        | some r =>
            obtain ⟨c₀, b⟩ := r
            obtain ⟨l1, l2, l3⟩ := setLoop_spec _ c _ c₀ b hl
            cases b with
            | false =>
                rw [hl] at h
                cases h
                exact le_trans l1 (le_of_le_of_eq hP (by rw [l2]))
            | true =>
                rw [hl] at h
                have hroom := l3 rfl
                cases hmg : mapGet k c₀.cache with
                | none =>
                    simp only [hmg] at h
                    cases h
                    dsimp only
                    omega
                | some old =>
                    simp only [hmg] at h
                    cases h
                    dsimp only
                    have hnn : (0 : Int) ≤ (estimateSize old.html : Int) := by positivity
                    omega

/-- Helper: the invariant is preserved along any successful operation
sequence. -/
theorem applySeq_preserves (ops : List CacheOp) :
    ∀ c c', c.currentMemorySize ≤ c.maxMemorySize →
      applySeq ops c = some c' →
      c'.currentMemorySize ≤ c'.maxMemorySize := by
  induction ops with
  | nil =>
      intro c c' hP h
      simp [applySeq] at h
      exact h ▸ hP
  | cons op ops ih =>
      intro c c' hP h
      rw [applySeq, List.foldl_cons] at h
      cases hop : applyOp op c with
      | none =>
          have hb : (some c).bind (applyOp op) = none := by simp [hop]
          rw [hb, foldl_bind_none] at h
          cases h
      | some c₁ =>
          have hb : (some c).bind (applyOp op) = some c₁ := by simp [hop]
          rw [hb] at h
          exact ih c₁ c' (applyOp_preserves op c c₁ hP hop) h

/-- C1. Cache respects the memory ceiling: after any successful sequence of
operations on a freshly constructed cache, the `memorySize` reported by
`getStats` never exceeds `maxMemorySize`. -/
theorem cache_memory_never_exceeds_ceiling (ops : List CacheOp)
    (maxSize ttl maxMem : Nat) (c' : RenderCache)
    (h : applySeq ops (RenderCache.init maxSize ttl maxMem) = some c') :
    (c'.getStats).memorySize ≤ ((c'.getStats).maxMemorySize : Int) := by
  have := applySeq_preserves ops (RenderCache.init maxSize ttl maxMem) c'
    (by simp [RenderCache.init]) h
  simpa [RenderCache.getStats] using this

/-- C1 witness: a concrete run. -/
theorem cache_memory_never_exceeds_ceiling_witness :
    applySeq [CacheOp.set 0 "a" "x"] (RenderCache.init 100 300000 52428800) =
      some ⟨[("a", ⟨"x", 0, 1, 0⟩)], 100, 300000, 52428800, 102⟩ ∧
    ((⟨[("a", ⟨"x", 0, 1, 0⟩)], 100, 300000, 52428800, 102⟩ :
        RenderCache).getStats).memorySize ≤
      (((⟨[("a", ⟨"x", 0, 1, 0⟩)], 100, 300000, 52428800, 102⟩ :
        RenderCache).getStats).maxMemorySize : Int) :=
  ⟨by decide,
   cache_memory_never_exceeds_ceiling [CacheOp.set 0 "a" "x"] 100 300000 52428800
     ⟨[("a", ⟨"x", 0, 1, 0⟩)], 100, 300000, 52428800, 102⟩ (by decide)⟩

/-- C10. Lazy expiry on access leaves the memory total alone: `get` and `has`
never change `currentMemorySize` (in particular not when they delete an
expired entry), while `delete` subtracts exactly the removed entry's
estimated size, `clear` resets to zero, and `cleanExpired` subtracts exactly
the sum of the removed entries' estimated sizes. -/
theorem lazy_expiry_preserves_memory (c : RenderCache) (now : Nat) (key : String) :
    (c.get now key).2.currentMemorySize = c.currentMemorySize ∧
    (c.has now key).2.currentMemorySize = c.currentMemorySize ∧
    (c.del key).currentMemorySize =
      (match mapGet key c.cache with
       | some e => c.currentMemorySize - estimateSize e.html
       | none => c.currentMemorySize) ∧
    c.clear.currentMemorySize = 0 ∧
    (c.cleanExpired now).2.currentMemorySize =
      c.currentMemorySize -
        (((c.cache.filter fun p => (now : Int) - p.2.timestamp > c.ttl).map
          fun p => (estimateSize p.2.html : Int)).sum) := by
  refine ⟨?_, ?_, ?_, rfl, rfl⟩
  · unfold RenderCache.get
    cases mapGet key c.cache with
    | none => rfl
    | some e =>
        dsimp only
        split <;> rfl
  · unfold RenderCache.has
    cases mapGet key c.cache with
    | none => rfl
    | some e =>
        dsimp only
        split <;> rfl
  · unfold RenderCache.del
    cases mapGet key c.cache with
    | none => rfl
    | some e => rfl

/-- C2 counterexample. The round trip fails as universally stated: on a cache
whose memory ceiling is 10 bytes, `set` skips any entry (the estimated size
of even the empty string is 100 bytes, above 20% of the ceiling), so the
following `get` at the same instant does not return the stored html. -/
theorem cache_roundtrip_counterexample :
    (RenderCache.init 100 1000 10).set 0 "k" "" =
      some (RenderCache.init 100 1000 10) ∧
    ((RenderCache.init 100 1000 10).get 0 "k").1 ≠ some "" := by decide

/-- C2 amended: on a fresh cache whose entry-count limit is at least 1, for
every key and every html within the per-entry size limit (estimated size at
most 20% of the memory ceiling), `set(k, h)` followed by `get(k)` within the
TTL returns exactly `h`. -/
theorem cache_roundtrip_within_limits (maxSize ttl maxMem : Nat) (k h : String)
    (now now' : Nat) (hmax : 1 ≤ maxSize)
    (hsize : 5 * estimateSize h ≤ maxMem)
    (hts : (now' : Int) - now ≤ ttl) :
    ∃ c', (RenderCache.init maxSize ttl maxMem).set now k h = some c' ∧
      (c'.get now' k).1 = some h := by
  have hfit : (0 : Int) + (estimateSize h : Int) ≤ (maxMem : Int) := by
    have h100 : 0 < estimateSize h := by unfold estimateSize; omega
    omega
  refine ⟨⟨[(k, ⟨h, now, 1, now⟩)], maxSize, ttl, maxMem, 0 + (estimateSize h : Int)⟩,
    ?_, ?_⟩
  · unfold RenderCache.set
    dsimp only [RenderCache.init]
    rw [if_neg (by omega)]
    rw [setLoop]
    rw [if_neg ?hcond]
    case hcond =>
      dsimp only [RenderCache.init, List.length_nil]
      push_neg
      exact ⟨by omega, by exact_mod_cast hfit⟩
    rfl
  · unfold RenderCache.get
    have : mapGet k [(k, ⟨h, now, 1, now⟩)] = some ⟨h, now, 1, now⟩ := by
      simp [mapGet]
    rw [this]
    dsimp only
    rw [if_neg (by omega)]

/-- C2 amended witness. -/
theorem cache_roundtrip_within_limits_witness :
    1 ≤ 100 ∧ 5 * estimateSize "hi" ≤ 52428800 ∧ ((1 : Int) - 0 ≤ 300000) ∧
    ∃ c', (RenderCache.init 100 300000 52428800).set 0 "k" "hi" = some c' ∧
      (c'.get 1 "k").1 = some "hi" :=
  ⟨by decide, by decide, by decide,
   cache_roundtrip_within_limits 100 300000 52428800 "k" "hi" 0 1 (by decide)
     (by decide) (by decide)⟩

/-- C9. `set` does NOT terminate on every input: on a cache of capacity 1
holding an entry under the empty-string key (reachable by `set("", "x")`),
the eviction loop of a second `set` makes no progress for any amount of fuel
— `if (lruKey)` treats the empty-string LRU key as falsy, so nothing is ever
evicted and the `while` condition stays true. The full sequence therefore has
no result. -/
theorem set_divergence_on_empty_key :
    (∀ fuel : Nat,
      setLoop fuel ⟨[("", ⟨"x", 0, 1, 0⟩)], 1, 1000, 52428800, 102⟩
        (estimateSize "y") = none) ∧
    applySeq [CacheOp.set 0 "" "x", CacheOp.set 1 "a" "y"]
      (RenderCache.init 1 1000 52428800) = none := by
  constructor
  · intro fuel
    induction fuel with
    | zero => rfl
    | succ n ih =>
        rw [setLoop]
        rw [if_pos (by left; decide)]
        rw [if_neg (by decide)]
        have hev :
            (⟨[("", ⟨"x", 0, 1, 0⟩)], 1, 1000, 52428800, 102⟩ :
              RenderCache).evictLeastRecentlyUsed =
            ⟨[("", ⟨"x", 0, 1, 0⟩)], 1, 1000, 52428800, 102⟩ := by decide
        rw [hev]
        exact ih
  · decide

/-- C6 counterexample. `switchDocument` does NOT cancel the pending debounce
timer of the previously active document: with a timer pending at deadline
100, switching at time 50 pushes the new document immediately but leaves the
timer pending. -/
theorem switch_document_counterexample :
    (switchDocument 50 2 ⟨true, some 1, some 100⟩).1.updateTimeout = some 100 ∧
    (switchDocument 50 2 ⟨true, some 1, some 100⟩).2 =
      some (.renderAndPush 2 50) := by decide

/-- C6 amended: switching the active document immediately (bypassing the
debounce) renders and pushes an update for the new document, but it leaves
any pending debounce timer untouched (the timer is not cancelled and may
still fire afterwards). -/
theorem switch_document_amended (t doc : Nat) (s : ProviderState)
    (hp : s.panel = true) :
    switchDocument t doc s =
      ({ s with currentDocument := some doc }, some (.renderAndPush doc t)) ∧
    (switchDocument t doc s).1.updateTimeout = s.updateTimeout := by
  have h1 : switchDocument t doc s =
      ({ s with currentDocument := some doc }, some (.renderAndPush doc t)) := by
    unfold switchDocument doUpdatePreview
    rw [hp]
    simp
  exact ⟨h1, by rw [h1]⟩

/-- C6 amended witness. -/
theorem switch_document_amended_witness :
    (⟨true, some 1, some 100⟩ : ProviderState).panel = true ∧
    switchDocument 50 2 ⟨true, some 1, some 100⟩ =
      (⟨true, some 2, some 100⟩, some (.renderAndPush 2 50)) ∧
    (switchDocument 50 2 ⟨true, some 1, some 100⟩).1.updateTimeout = some 100 :=
  ⟨rfl, switch_document_amended 50 2 ⟨true, some 1, some 100⟩ rfl⟩

/-- C5. When a surface-side scroll is handled (editor present, sync enabled,
no editor-origin suppression), the source view is revealed at the supplied
line when present, otherwise at `floor(percent * (totalLines - 1))`, clamped
in both cases to `[0, totalLines - 1]`; in particular fraction 1/2 on a
101-line document with no explicit line yields line 50. -/
theorem webview_scroll_target_line (totalLines : Nat) (percent : ℚ)
    (line : Option ℚ) (s : ScrollSyncState)
    (hflag : s.isScrollingFromEditor = false) :
    (handleWebviewScroll true true totalLines percent line s).2 =
      some (max 0 (min
        (match line with
         | some l => l
         | none => (⌊percent * ((totalLines : ℚ) - 1)⌋ : ℚ))
        ((totalLines : ℚ) - 1))) ∧
    (handleWebviewScroll true true 101 (1 / 2) none s).2 = some 50 := by
  constructor
  · unfold handleWebviewScroll
    simp [hflag]
  · unfold handleWebviewScroll
    simp only [hflag, Bool.not_true, Bool.false_eq_true, if_false]
    norm_num

/-- C5 witness. -/
theorem webview_scroll_target_line_witness :
    (⟨false, false⟩ : ScrollSyncState).isScrollingFromEditor = false ∧
    ((handleWebviewScroll true true 101 (1 / 2) none ⟨false, false⟩).2 =
        some (max 0 (min
          (match (none : Option ℚ) with
           | some l => l
           | none => (⌊(1 / 2 : ℚ) * ((101 : ℚ) - 1)⌋ : ℚ))
          ((101 : ℚ) - 1))) ∧
      (handleWebviewScroll true true 101 (1 / 2) none ⟨false, false⟩).2 =
        some 50) :=
  ⟨rfl, webview_scroll_target_line 101 (1 / 2) none ⟨false, false⟩ rfl⟩

/-- C7 counterexample. The validator does not enforce the protocol table's
shape: a `scrollFromEditor` message with `percent = 2` (outside [0,1]) and
`line = 1/2` (not an integer) is accepted. Moreover the webview-side listener
dispatches without validating at all: an `update` message whose `html` is the
number 42 is rejected by the validator yet dispatched to `handleUpdate`. -/
theorem validator_shape_counterexample :
    isExtensionToWebviewMessage
      (.vObj [("type", .pStr "scrollFromEditor"), ("percent", .pNum 2),
              ("line", .pNum (1 / 2))]) = true ∧
    specScrollFromSourceShape
      (.vObj [("type", .pStr "scrollFromEditor"), ("percent", .pNum 2),
              ("line", .pNum (1 / 2))]) = false ∧
    isExtensionToWebviewMessage
      (.vObj [("type", .pStr "update"), ("html", .pNum 42)]) = false ∧
    webviewOnMessage (.vObj [("type", .pStr "update"), ("html", .pNum 42)]) =
      .update (.pNum 42) := by decide

/-- C7 amended: on the extension side, a message rejected by
`isWebviewToExtensionMessage` is never dispatched to any handler and causes
no state change (only the invalid-message warning); and the validator checks
`scrollFromEditor` messages for field TYPES only — `percent` and `line` must
be numbers, with no [0,1] range check and no integrality check. -/
theorem validator_amended (m : JSValue) (s : ScrollSyncState)
    (ea en hsm : Bool) (tl : Nat)
    (hinv : isWebviewToExtensionMessage m = false) :
    handleWebviewMessage ea en tl hsm m s = (s, .warnInvalid) ∧
    (∀ m' : JSValue, getField m' "type" = .pStr "scrollFromEditor" →
      isExtensionToWebviewMessage m' =
        (isNumber (getField m' "percent") && isNumber (getField m' "line"))) := by
  constructor
  · unfold handleWebviewMessage
    rw [hinv]
    rfl
  · intro m' htype
    cases m' with
    | vObj fs =>
        unfold isExtensionToWebviewMessage
        rw [htype]
        rfl
    | vNull => simp [getField] at htype
    | vUndefined => simp [getField] at htype
    | vBool b => simp [getField] at htype
    | vNum q => simp [getField] at htype
    | vStr st => simp [getField] at htype

/-- C7 amended witness. -/
theorem validator_amended_witness :
    isWebviewToExtensionMessage (.vNum 3) = false ∧
    (handleWebviewMessage true true 101 true (.vNum 3) ⟨false, false⟩ =
        (⟨false, false⟩, .warnInvalid) ∧
      (∀ m' : JSValue, getField m' "type" = .pStr "scrollFromEditor" →
        isExtensionToWebviewMessage m' =
          (isNumber (getField m' "percent") && isNumber (getField m' "line")))) :=
  ⟨rfl, validator_amended (.vNum 3) ⟨false, false⟩ true true true 101 rfl⟩

/-- C4 counterexample. The suppression can be lifted early by a STALE reset
timer: the source scrolls at t=0 (applied on the surface at t=100, reset
scheduled for t=250) and again at t=110 (applied at t=210, reset scheduled
for t=360). The echo of the second application arrives as a surface scroll at
t=255 — within 150 ms of its application — but the first application's reset
already cleared the suppression flag at t=250, so the echo is debounced,
posted, and moves the source view (`revealLine` at t=355): a second
source-view movement produced by an echo inside the suppression window. -/
theorem scroll_antifeedback_counterexample :
    ((runSync ⟨true, true, 101, 1 / 2⟩ 20
      [SyncEvent.editorScroll 0 5, SyncEvent.editorScroll 110 6,
       SyncEvent.containerScroll 255] 400 SyncState.init).2.map
        (fun o => (o.time, o.isReveal))) =
      [(100, false), (210, false), (355, true)] ∧
    255 < 210 + 150 := by decide

/-- Helper: the minimal-deadline pick returns a pending timer. -/
theorem pickMinTimer_mem (l : List (Nat × TimerKind)) (x : Nat × TimerKind)
    (h : pickMinTimer l = some x) : x ∈ l := by
  induction l with
  | nil => simp [pickMinTimer] at h
  | cons a as ih =>
      rw [pickMinTimer] at h
      cases hp : pickMinTimer as with
      | none =>
          rw [hp] at h
          cases h
          exact List.mem_cons_self _ _
      | some y =>
          rw [hp] at h
          dsimp only at h
          split at h
          · cases h
            exact List.mem_cons_self _ _
          · cases h
            exact List.mem_cons_of_mem _ (ih hp)

/-- Helper: with no timer due, firing is the identity and emits nothing. -/
theorem fireDue_not_due (cfg : SyncConfig) (fuel t : Nat) (s : SyncState)
    (h : ∀ x ∈ s.timers, t < x.1) :
    fireDue cfg fuel t s = (s, []) := by
  cases fuel with
  | zero => rfl
  | succ n =>
      rw [fireDue]
      cases hp : pickMinTimer s.timers with
      | none => rfl
      | some x =>
          obtain ⟨d, k⟩ := x
          have hx := pickMinTimer_mem _ _ hp
          dsimp only
          rw [if_neg (not_le.mpr (h _ hx))]

/-- C4 amended: a source-originated scroll applied on the surface whose echo
arrives while the surface-side suppression flag is still raised — which holds
whenever every pending suppression-reset timer (of this AND of any earlier
application) expires after the echo and no debounce timer is pending — causes
no state change and no output at all, hence no second source-view movement. -/
theorem scroll_antifeedback_amended (cfg : SyncConfig) (fuel t : Nat)
    (s : SyncState)
    (hflag : s.wvFromEditor = true)
    (hwv : ∀ d ∈ s.wvResets, t < d)
    (hext : ∀ d ∈ s.extResets, t < d)
    (hwvdeb : s.wvDebounce = none)
    (hextdeb : s.extDebounce = none) :
    syncStep cfg fuel (SyncEvent.containerScroll t) s = (s, []) := by
  have htimers : ∀ x ∈ s.timers, t < x.1 := by
    intro x hx
    unfold SyncState.timers at hx
    rw [hwvdeb, hextdeb] at hx
    simp only [List.nil_append, List.mem_append, List.mem_map] at hx
    rcases hx with ⟨d, hd, rfl⟩ | ⟨d, hd, rfl⟩
    · exact hext d hd
    · exact hwv d hd
  have hfd : fireDue cfg fuel (SyncEvent.containerScroll t).time s = (s, []) :=
    fireDue_not_due cfg fuel _ s htimers
  unfold syncStep
  rw [hfd]
  dsimp only
  rw [if_pos hflag]

/-- C4 amended witness. -/
theorem scroll_antifeedback_amended_witness :
    (⟨false, false, none, [], true, [300], none⟩ : SyncState).wvFromEditor = true ∧
    (∀ d ∈ (⟨false, false, none, [], true, [300], none⟩ : SyncState).wvResets,
      255 < d) ∧
    syncStep ⟨true, true, 101, 1 / 2⟩ 20 (SyncEvent.containerScroll 255)
        ⟨false, false, none, [], true, [300], none⟩ =
      (⟨false, false, none, [], true, [300], none⟩, []) :=
  ⟨rfl, by decide,
   scroll_antifeedback_amended ⟨true, true, 101, 1 / 2⟩ 20 255
     ⟨false, false, none, [], true, [300], none⟩ rfl (by decide) (by decide)
     rfl rfl⟩

/-- Helper: with unique attribute names, looking up an attribute of the list
itself returns its own value. -/
theorem attrLookup_self (a : List (String × String))
    (h : (a.map Prod.fst).Nodup) :
    ∀ p ∈ a, attrLookup a p.1 = some p.2 := by
  induction a with
  | nil => intro p hp; cases hp
  | cons x rest ih =>
      intro p hp
      simp only [List.map_cons, List.nodup_cons, List.mem_map] at h
      cases hp with
      | head =>
          unfold attrLookup
          simp [List.find?]
      | tail _ hp' =>
          have hx : ¬x.1 = p.1 := by
            intro hcontra
            exact h.1 ⟨p, hp', hcontra.symm⟩
          unfold attrLookup
          rw [List.find?]
          rw [decide_eq_false hx]
          exact ih h.2 p hp'

/-- Helper: reconciling an attribute list with itself is the identity, given
unique names. -/
theorem morphAttrs_self (a : List (String × String))
    (h : (a.map Prod.fst).Nodup) : morphAttrs a a = a := by
  unfold morphAttrs
  have hfil : a.filter (fun p => (attrLookup a p.1).isSome) = a := by
    rw [List.filter_eq_self]
    intro p hp
    rw [attrLookup_self a h p hp]
    rfl
  have hnil : a.filter (fun p => (attrLookup a p.1).isNone) = [] := by
    rw [List.filter_eq_nil_iff]
    intro p hp
    rw [attrLookup_self a h p hp]
    simp
  rw [hfil, hnil, List.append_nil]
  have : ∀ p ∈ a, (p.1, (attrLookup a p.1).getD p.2) = p := by
    intro p hp
    rw [attrLookup_self a h p hp]
    rfl
  calc a.map (fun p => (p.1, (attrLookup a p.1).getD p.2)) = a.map id :=
        List.map_congr_left this
    _ = a := List.map_id a

mutual

/-- Helper: morphing a DOM-realizable node against itself changes nothing. -/
theorem morphDom_self : ∀ n : DomNode, wfNode n = true → morphDom n n = n
  | .text _, _ => rfl
  | .elem tag a c, h => by
      have hwf : wfAttrs a = true ∧ wfForest c = true := by
        have := h
        rw [wfNode] at this
        exact Bool.and_eq_true_iff.mp this
      rw [morphDom]
      rw [morphAttrs_self a (by simpa [wfAttrs] using hwf.1)]
      rw [if_neg (by simp)]
      rw [morphChildren_self c hwf.2]

/-- Helper: morphing a forest against itself changes nothing. -/
theorem morphChildren_self : ∀ l : List DomNode, wfForest l = true →
    morphChildren l l = l
  | [], _ => rfl
  | n :: rest, h => by
      have hwf : wfNode n = true ∧ wfForest rest = true := by
        have := h
        rw [wfForest] at this
        exact Bool.and_eq_true_iff.mp this
      rw [morphChildren]
      rw [morphDom_self n hwf.1, morphChildren_self rest hwf.2]

end

/-- C8 counterexample. Applying the same HTML twice is NOT the identity on
the second application. Start from five `<abcdef></abcdef>` children (85
serialized characters) and apply five `<p>AA</p>` children (45 characters):
the first application has change ratio 40/85 ≤ 0.5 and morphs — but
`morphDom` never compares tag names, so the result keeps the old `abcdef`
tags around the new text (95 characters). The second application of the SAME
html now sees ratio 50/95 > 0.5 and replaces wholesale, changing the tree
again. -/
theorem patch_idempotence_counterexample :
    serializeNode
        (updatePreviewContent
          (List.replicate 5 (DomNode.elem "p" [] [DomNode.text "AA"]))
          (updatePreviewContent
            (List.replicate 5 (DomNode.elem "p" [] [DomNode.text "AA"]))
            (DomNode.elem "div" []
              (List.replicate 5 (DomNode.elem "abcdef" [] []))))) ≠
      serializeNode
        (updatePreviewContent
          (List.replicate 5 (DomNode.elem "p" [] [DomNode.text "AA"]))
          (DomNode.elem "div" []
            (List.replicate 5 (DomNode.elem "abcdef" [] [])))) := by
  have e1 : (serializeList (List.replicate 5 (DomNode.elem "abcdef" [] []))).length
      = 85 := by decide
  have e2 : (serializeList
      (List.replicate 5 (DomNode.elem "p" [] [DomNode.text "AA"]))).length
      = 45 := by decide
  have e3 : (serializeList
      (List.replicate 5 (DomNode.elem "abcdef" [] [DomNode.text "AA"]))).length
      = 95 := by decide
  have h1 : updatePreviewContent
      (List.replicate 5 (DomNode.elem "p" [] [DomNode.text "AA"]))
      (DomNode.elem "div" [] (List.replicate 5 (DomNode.elem "abcdef" [] []))) =
      DomNode.elem "div" []
        (List.replicate 5 (DomNode.elem "abcdef" [] [DomNode.text "AA"])) := by
    rw [updatePreviewContent]
    rw [if_neg (by decide)]
    rw [e1, e2]
    rw [if_neg (by
      have habs : |((45 : ℕ) : ℚ) - ((85 : ℕ) : ℚ)| = 40 := by
        rw [abs_of_nonpos (by norm_num)]
        norm_num
      rw [habs, (by decide : max (85 : ℕ) 45 = 85)]
      norm_num)]
    rfl
  rw [h1]
  have h2 : updatePreviewContent
      (List.replicate 5 (DomNode.elem "p" [] [DomNode.text "AA"]))
      (DomNode.elem "div" []
        (List.replicate 5 (DomNode.elem "abcdef" [] [DomNode.text "AA"]))) =
      DomNode.elem "div" []
        (List.replicate 5 (DomNode.elem "p" [] [DomNode.text "AA"])) := by
    rw [updatePreviewContent]
    rw [if_neg (by decide)]
    rw [e3, e2]
    rw [if_pos (by
      have habs : |((45 : ℕ) : ℚ) - ((95 : ℕ) : ℚ)| = 50 := by
        rw [abs_of_nonpos (by norm_num)]
        norm_num
      rw [habs, (by decide : max (95 : ℕ) 45 = 95)]
      norm_num)]
  rw [h2]
  decide

/-- C8 amended: the second application of the same HTML is the identity
whenever the first application set the content wholesale (empty container, or
change ratio above 0.5), the container carries no attributes (the morph path
reconciles the container against an attribute-less temporary `div`), and the
new content is DOM-realizable; in general the second application can still
change the tree. -/
theorem patch_idempotence_after_wholesale (dv : String) (cs t : List DomNode)
    (hwf : wfForest t = true)
    (hfirst : cs = [] ∨
      (1 : ℚ) / 2 <
        |((serializeList t).length : ℚ) - ((serializeList cs).length : ℚ)| /
          ((max (serializeList cs).length (serializeList t).length : ℕ) : ℚ)) :
    updatePreviewContent t (updatePreviewContent t (DomNode.elem dv [] cs)) =
      updatePreviewContent t (DomNode.elem dv [] cs) := by
  have h1 : updatePreviewContent t (DomNode.elem dv [] cs) =
      DomNode.elem dv [] t := by
    rw [updatePreviewContent]
    cases hfirst with
    | inl hnil =>
        subst hnil
        rw [if_pos (by decide)]
    | inr hratio =>
        by_cases hcs : cs.isEmpty
        · rw [if_pos hcs]
        · rw [if_neg hcs]
          rw [if_pos hratio]
  rw [h1]
  rw [updatePreviewContent]
  by_cases ht : t.isEmpty
  · rw [if_pos ht]
  · rw [if_neg ht]
    rw [if_neg (by
      have : |((serializeList t).length : ℚ) - ((serializeList t).length : ℚ)| = 0 := by
        simp
      rw [this]
      simp)]
    rw [morphDom]
    rw [if_neg (by simp)]
    rw [morphChildren_self t hwf]
    rfl

/-- C8 amended witness. -/
theorem patch_idempotence_after_wholesale_witness :
    wfForest [DomNode.text "x"] = true ∧
    ([] : List DomNode) = [] ∧
    updatePreviewContent [DomNode.text "x"]
        (updatePreviewContent [DomNode.text "x"] (DomNode.elem "div" [] [])) =
      updatePreviewContent [DomNode.text "x"] (DomNode.elem "div" [] []) :=
  ⟨rfl, rfl,
   patch_idempotence_after_wholesale "div" [] [DomNode.text "x"] rfl (Or.inl rfl)⟩

/-- Helper: a key absent from the map is not found. -/
theorem mapGet_eq_none_of_not_mem (k : String) (l : List (String × CacheEntry))
    (h : k ∉ l.map Prod.fst) : mapGet k l = none := by
  unfold mapGet
  rw [List.find?_eq_none.mpr]
  · rfl
  · intro p hp
    simp only [decide_eq_true_eq]
    intro hpk
    exact h (List.mem_map.mpr ⟨p, hp, hpk⟩)

/-- Helper: a key present in the map is found. -/
theorem mapGet_isSome_of_mem (k : String) (l : List (String × CacheEntry))
    (h : k ∈ l.map Prod.fst) : ∃ e, mapGet k l = some e := by
  induction l with
  | nil => simp at h
  | cons p rest ih =>
      by_cases hpk : p.1 = k
      · exact ⟨p.2, by unfold mapGet; simp [List.find?, hpk]⟩
      · have h' : k ∈ rest.map Prod.fst := by
          simp only [List.map_cons, List.mem_cons] at h
          rcases h with h | h
          · exact absurd h.symm hpk
          · exact h
        obtain ⟨e, he⟩ := ih h'
        refine ⟨e, ?_⟩
        unfold mapGet at he ⊢
        rw [List.find?]
        rw [decide_eq_false hpk]
        exact he

/-- Helper: `Map.set` of a fresh key appends. -/
theorem mapSet_eq_append_of_not_mem (k : String) (v : CacheEntry)
    (l : List (String × CacheEntry)) (h : k ∉ l.map Prod.fst) :
    mapSet k v l = l ++ [(k, v)] := by
  induction l with
  | nil => rfl
  | cons p rest ih =>
      simp only [List.map_cons, List.mem_cons] at h
      push_neg at h
      rw [show p = (p.1, p.2) from rfl, mapSet]
      rw [if_neg (fun hc => h.1 hc.symm)]
      rw [ih h.2]
      rfl

/-- Helper: deleting a key from the map erases it from the key list. -/
theorem mapDelete_map_fst (k : String) (l : List (String × CacheEntry)) :
    (mapDelete k l).map Prod.fst = (l.map Prod.fst).erase k := by
  induction l with
  | nil => rfl
  | cons p rest ih =>
      rw [show p = (p.1, p.2) from rfl, mapDelete]
      by_cases hpk : p.1 = k
      · rw [if_pos hpk]
        subst hpk
        exact (List.erase_cons_head p.1 _).symm
      · rw [if_neg hpk]
        rw [List.map_cons, List.map_cons,
          List.erase_cons_tail (by simpa using hpk), ih]

/-- Helper: deleting a present key shortens the map by one. -/
theorem mapDelete_length_of_mem (k : String) (l : List (String × CacheEntry))
    (h : k ∈ l.map Prod.fst) : (mapDelete k l).length + 1 = l.length := by
  induction l with
  | nil => simp at h
  | cons p rest ih =>
      rw [show p = (p.1, p.2) from rfl, mapDelete]
      by_cases hpk : p.1 = k
      · rw [if_pos hpk]
        rfl
      · have h' : k ∈ rest.map Prod.fst := by
          simp only [List.map_cons, List.mem_cons] at h
          rcases h with h | h
          · exact absurd h.symm hpk
          · exact h
        rw [if_neg hpk]
        simp only [List.length_cons]
        have := ih h'
        omega


/-- Helper: once the scan accumulator is set, `lruScan` is a fold with the
strict-less update. -/
theorem lruScan_some (l : List (String × CacheEntry)) :
    ∀ a : String × Nat,
      lruScan (some a) l = some (l.foldl
        (fun b p => if p.2.lastAccess < b.2 then (p.1, p.2.lastAccess) else b) a) := by
  induction l with
  | nil => intro a; rfl
  | cons p rest ih =>
      intro a
      obtain ⟨k0, t0⟩ := a
      rw [show p = (p.1, p.2) from rfl, lruScan, List.foldl_cons]
      dsimp only
      by_cases hlt : p.2.lastAccess < t0
      · rw [if_pos hlt, if_pos hlt]
        exact ih _
      · rw [if_neg hlt, if_neg hlt]
        exact ih _

/-- Helper: the strict-less fold computes the first minimum, merged with the
accumulator (the accumulator wins ties, matching iteration order). -/
theorem foldl_lru_eq_specFirstMin (l : List (String × CacheEntry)) :
    ∀ a : String × Nat,
      l.foldl (fun b p => if p.2.lastAccess < b.2 then (p.1, p.2.lastAccess) else b) a =
        (match specFirstMin (l.map (fun p => (p.1, p.2.lastAccess))) with
         | none => a
         | some m => if m.2 < a.2 then m else a) := by
  induction l with
  | nil => intro a; rfl
  | cons p rest ih =>
      intro a
      rw [List.foldl_cons, ih, List.map_cons, specFirstMin]
      cases hr : specFirstMin (rest.map (fun p => (p.1, p.2.lastAccess))) with
      | none =>
          dsimp only
      | some y =>
          obtain ⟨ky, ty⟩ := y
          obtain ⟨ka, ta⟩ := a
          dsimp only
          by_cases h2 : p.2.lastAccess ≤ ty
          · rw [if_pos h2]
            dsimp only
            rw [apply_ite Prod.snd]
            dsimp only
            split_ifs <;> first | rfl | (exfalso; omega)
          · rw [if_neg h2]
            dsimp only
            rw [apply_ite Prod.snd]
            dsimp only
            split_ifs <;> first | rfl | (exfalso; omega)

/-- Helper: the source's LRU scan selects exactly the spec's first minimum of
`lastAccessedAt` in iteration order. -/
theorem findLRU_eq_specFirstMin (l : List (String × CacheEntry)) :
    findLRU l =
      (specFirstMin (l.map (fun p => (p.1, p.2.lastAccess)))).map Prod.fst := by
  cases l with
  | nil => rfl
  | cons p rest =>
      unfold findLRU
      rw [show p = (p.1, p.2) from rfl, lruScan]
      try dsimp only
      rw [lruScan_some, foldl_lru_eq_specFirstMin]
      rw [List.map_cons, specFirstMin]
      cases hr : specFirstMin (rest.map (fun p => (p.1, p.2.lastAccess))) with
      | none => rfl
      | some m =>
          obtain ⟨km, tm⟩ := m
          dsimp only
          by_cases h2 : p.2.lastAccess ≤ tm
          · rw [if_pos h2]
            try dsimp only
            rw [if_neg (by omega)]
          · rw [if_neg h2]
            try dsimp only
            rw [if_pos (by omega)]

/-- Helper: a nonempty list has a first minimum. -/
theorem specFirstMin_isSome (x : String × Nat) (rest : List (String × Nat)) :
    ∃ m, specFirstMin (x :: rest) = some m := by
  rw [specFirstMin]
  cases specFirstMin rest with
  | none => exact ⟨x, rfl⟩
  | some y =>
      dsimp only
      by_cases h : x.2 ≤ y.2
      · exact ⟨x, by rw [if_pos h]⟩
      · exact ⟨y, by rw [if_neg h]⟩

/-- Helper: the spec's first minimum is a member attaining the minimum. -/
theorem specFirstMin_mem_min (l : List (String × Nat)) :
    ∀ m : String × Nat, specFirstMin l = some m →
      m ∈ l ∧ ∀ p ∈ l, m.2 ≤ p.2 := by
  induction l with
  | nil => intro m h; cases h
  | cons x rest ih =>
      intro m h
      rw [specFirstMin] at h
      cases hr : specFirstMin rest with
      | none =>
          rw [hr] at h
          cases h
          have hrest : rest = [] := by
            cases rest with
            | nil => rfl
            | cons y ys =>
                obtain ⟨m', hm'⟩ := specFirstMin_isSome y ys
                rw [hm'] at hr
                cases hr
          subst hrest
          refine ⟨List.mem_singleton_self x, ?_⟩
          intro p hp
          rw [List.mem_singleton] at hp
          subst hp
          exact le_refl _
      | some y =>
          rw [hr] at h
          dsimp only at h
          obtain ⟨hymem, hymin⟩ := ih y hr
          split at h
          · cases h
            refine ⟨List.mem_cons_self x rest, ?_⟩
            intro p hp
            cases hp with
            | head => exact le_refl _
            | tail _ hmem =>
                rename_i hle
                exact le_trans hle (hymin p hmem)
          · cases h
            refine ⟨List.mem_cons_of_mem x hymem, ?_⟩
            intro p hp
            cases hp with
            | head =>
                rename_i hnle
                omega
            | tail _ hmem => exact hymin p hmem

/-- Helper: the keys of the created entries are the keys of the batch. -/
theorem entriesOf_map_fst (items : List (String × String × Nat)) :
    (entriesOf items).map Prod.fst = itemsKeys items := by
  simp [entriesOf, itemsKeys, List.map_map]

/-- Helper: the created entries carry the insertion times as `lastAccess`. -/
theorem entriesOf_lastAccess (items : List (String × String × Nat)) :
    (entriesOf items).map (fun p => (p.1, p.2.lastAccess)) =
      items.map (fun x => (x.1, x.2.2)) := by
  simp [entriesOf, List.map_map]

/-- Helper: batch size totals are nonnegative. -/
theorem itemsSizeSum_nonneg (items : List (String × String × Nat)) :
    0 ≤ itemsSizeSum items := by
  unfold itemsSizeSum
  apply List.sum_nonneg
  intro x hx
  simp only [List.mem_map] at hx
  obtain ⟨y, -, rfl⟩ := hx
  positivity

/-- Helper: batch size totals split over cons. -/
theorem itemsSizeSum_cons (x : String × String × Nat)
    (rest : List (String × String × Nat)) :
    itemsSizeSum (x :: rest) = (estimateSize x.2.1 : Int) + itemsSizeSum rest := by
  simp [itemsSizeSum]

/-- Helper: batch size totals split over append. -/
theorem itemsSizeSum_append (l1 l2 : List (String × String × Nat)) :
    itemsSizeSum (l1 ++ l2) = itemsSizeSum l1 + itemsSizeSum l2 := by
  simp [itemsSizeSum]

/-- Helper: a successful first operation turns a sequence into its tail. -/
theorem applySeq_cons_some (op : CacheOp) (ops : List CacheOp)
    (c c₁ : RenderCache) (h : applyOp op c = some c₁) :
    applySeq (op :: ops) c = applySeq ops c₁ := by
  unfold applySeq
  rw [List.foldl_cons]
  have hb : (some c).bind (applyOp op) = some c₁ := by simpa using h
  rw [hb]

/-- Helper: a successful prefix splits a sequence. -/
theorem applySeq_append_some (l1 l2 : List CacheOp) (c c' : RenderCache)
    (h : applySeq l1 c = some c') :
    applySeq (l1 ++ l2) c = applySeq l2 c' := by
  unfold applySeq at h ⊢
  rw [List.foldl_append, h]

/-- Helper (phase 1 of the eviction scenario): inserting a batch of fresh
keys, each within the per-entry limit, with enough memory for the whole batch
and enough entry slots, appends the corresponding entries in order and adds
the batch's total size — no eviction and no overwrite happens. -/
theorem insert_batch_appends (items : List (String × String × Nat)) :
    ∀ c : RenderCache,
      (∀ x ∈ items, x.1 ∉ c.cache.map Prod.fst) →
      (itemsKeys items).Nodup →
      (∀ x ∈ items, 5 * estimateSize x.2.1 ≤ c.maxMemorySize) →
      c.currentMemorySize + itemsSizeSum items ≤ (c.maxMemorySize : Int) →
      c.cache.length + items.length ≤ c.maxSize →
      applySeq (insertOps items) c =
        some { c with
               cache := c.cache ++ entriesOf items
               currentMemorySize := c.currentMemorySize + itemsSizeSum items } := by
  induction items with
  | nil =>
      intro c _ _ _ _ _
      show some c = _
      rw [show entriesOf [] = [] from rfl, show itemsSizeSum [] = 0 from rfl]
      rw [List.append_nil, add_zero]
  | cons x rest ih =>
      intro c hfresh hnodup hentry hsum hlen
      have hszle : 5 * estimateSize x.2.1 ≤ c.maxMemorySize :=
        hentry x (List.mem_cons_self x rest)
      have hrest0 : (0 : Int) ≤ itemsSizeSum rest := itemsSizeSum_nonneg rest
      have hks : x.1 ∉ c.cache.map Prod.fst := hfresh x (List.mem_cons_self x rest)
      have hget := mapGet_eq_none_of_not_mem x.1 c.cache hks
      have hmset := mapSet_eq_append_of_not_mem x.1 ⟨x.2.1, x.2.2, 1, x.2.2⟩ c.cache hks
      have hconssum := itemsSizeSum_cons x rest
      have hlen' : c.cache.length + (rest.length + 1) ≤ c.maxSize := by
        have h := hlen
        rw [List.length_cons] at h
        exact h
      have hop : applyOp (CacheOp.set x.2.2 x.1 x.2.1) c =
          some { c with
                 cache := c.cache ++ [(x.1, ⟨x.2.1, x.2.2, 1, x.2.2⟩)]
                 currentMemorySize :=
                   c.currentMemorySize + (estimateSize x.2.1 : Int) } := by
        show RenderCache.set x.2.2 x.1 x.2.1 c = _
        unfold RenderCache.set
        dsimp only
        rw [if_neg (by omega)]
        rw [setLoop]
        rw [if_neg (by push_neg; exact ⟨by omega, by omega⟩)]
        dsimp only
        rw [hget]
        rw [hmset]
      rw [show insertOps (x :: rest) =
            CacheOp.set x.2.2 x.1 x.2.1 :: insertOps rest from rfl]
      rw [applySeq_cons_some _ _ _ _ hop]
      rw [ih _ ?fresh ?nodup ?entry ?sum ?len]
      case fresh =>
        intro y hy
        dsimp only
        rw [List.map_append]
        simp only [List.mem_append, List.map_cons, List.map_nil,
          List.mem_singleton, not_or]
        refine ⟨fun hc => hfresh y (List.mem_cons_of_mem x hy) hc, ?_⟩
        have hnd := hnodup
        rw [show itemsKeys (x :: rest) = x.1 :: itemsKeys rest from rfl,
          List.nodup_cons] at hnd
        intro hc
        exact hnd.1 (hc ▸ List.mem_map.mpr ⟨y, hy, rfl⟩)
      case nodup =>
        have hnd := hnodup
        rw [show itemsKeys (x :: rest) = x.1 :: itemsKeys rest from rfl,
          List.nodup_cons] at hnd
        exact hnd.2
      case entry =>
        intro y hy
        exact hentry y (List.mem_cons_of_mem x hy)
      case sum =>
        dsimp only
        omega
      case len =>
        dsimp only
        rw [List.length_append]
        simp only [List.length_cons, List.length_nil]
        omega
      rw [hconssum, ← add_assoc]
      dsimp only
      rw [List.append_assoc]
      rfl

/-- Helper (phase 2 of the eviction scenario): a `set` on a cache at its
entry-count limit — with room in memory for the incoming entry and a fresh,
nonempty-keyed LRU victim — evicts exactly the first entry with minimal
`lastAccess` and appends the new entry. -/
theorem set_evicts_lru (c : RenderCache) (now : Nat) (k h : String)
    (km : String) (tm : Nat) (ekm : CacheEntry)
    (hfull : c.cache.length = c.maxSize)
    (hpos : 1 ≤ c.maxSize)
    (hroom : c.currentMemorySize + (estimateSize h : Int) ≤ (c.maxMemorySize : Int))
    (hszle : 5 * estimateSize h ≤ c.maxMemorySize)
    (hfm : specFirstMin (c.cache.map (fun p => (p.1, p.2.lastAccess))) =
      some (km, tm))
    (hkm : km ≠ "")
    (hget : mapGet km c.cache = some ekm)
    (hknotin : k ∉ c.cache.map Prod.fst) :
    c.set now k h =
      some { c with
             cache := mapDelete km c.cache ++ [(k, ⟨h, now, 1, now⟩)]
             currentMemorySize :=
               c.currentMemorySize - (estimateSize ekm.html : Int) +
                 (estimateSize h : Int) } := by
  have hkmem : km ∈ c.cache.map Prod.fst := by
    obtain ⟨hmem, -⟩ := specFirstMin_mem_min _ _ hfm
    simp only [List.mem_map] at hmem
    obtain ⟨p, hp, hpe⟩ := hmem
    exact List.mem_map.mpr ⟨p, hp, congrArg Prod.fst hpe⟩
  have hdl := mapDelete_length_of_mem km c.cache hkmem
  have hev : c.evictLeastRecentlyUsed =
      { c with
        cache := mapDelete km c.cache
        currentMemorySize :=
          c.currentMemorySize - (estimateSize ekm.html : Int) } := by
    unfold RenderCache.evictLeastRecentlyUsed
    rw [findLRU_eq_specFirstMin, hfm]
    dsimp only [Option.map]
    rw [if_neg hkm, hget]
  have hknotin2 : k ∉ (mapDelete km c.cache).map Prod.fst := by
    rw [mapDelete_map_fst]
    intro hc
    exact hknotin (List.erase_subset km (c.cache.map Prod.fst) hc)
  have hget2 := mapGet_eq_none_of_not_mem k _ hknotin2
  have hmset2 := mapSet_eq_append_of_not_mem k ⟨h, now, 1, now⟩ _ hknotin2
  have hekm0 : (0 : Int) ≤ (estimateSize ekm.html : Int) := by positivity
  obtain ⟨m, hm⟩ : ∃ m, c.maxSize = m + 1 := ⟨c.maxSize - 1, by omega⟩
  unfold RenderCache.set
  dsimp only
  rw [if_neg (by omega)]
  rw [setLoop]
  rw [if_pos (Or.inl (le_of_eq hfull.symm))]
  rw [if_neg (by omega)]
  rw [hev]
  rw [show c.cache.length = m + 1 from by omega]
  rw [setLoop]
  rw [if_neg (by
    push_neg
    constructor
    · dsimp only
      omega
    · dsimp only
      omega)]
  dsimp only
  rw [hget2, hmset2]

/-- C3 counterexample. With only the claim's own hypotheses (distinct keys,
each entry within the per-entry size limit), `maxSize + 1` insertions do NOT
leave exactly `maxSize` entries: with `maxSize = 6` and a 500-byte memory
ceiling, seven empty-html entries (estimated size 100 each, and
5 * 100 ≤ 500 so each passes the per-entry check) trigger MEMORY evictions as
well, and only 5 entries remain — two entries were evicted, not one. -/
theorem cache_eviction_count_counterexample :
    (∀ x ∈ ([("a", "", 0), ("b", "", 1), ("c", "", 2), ("d", "", 3),
             ("e", "", 4), ("f", "", 5), ("g", "", 6)] :
        List (String × String × Nat)), 5 * estimateSize x.2.1 ≤ 500) ∧
    (itemsKeys [("a", "", 0), ("b", "", 1), ("c", "", 2), ("d", "", 3),
       ("e", "", 4), ("f", "", 5), ("g", "", 6)]).Nodup ∧
    (applySeq (insertOps [("a", "", 0), ("b", "", 1), ("c", "", 2),
        ("d", "", 3), ("e", "", 4), ("f", "", 5), ("g", "", 6)])
      (RenderCache.init 6 1000 500)).map (fun c => c.cache.length) = some 5 := by
  refine ⟨by decide, by decide, by decide⟩

/-- C3 amended: if additionally the total estimated size of all
`maxSize + 1` entries fits under the memory ceiling (so only the entry-count
limit can trigger eviction) and the victim's key is nonempty (else the
eviction loop diverges), then inserting `maxSize + 1` distinct keys into a
fresh cache leaves exactly `maxSize` entries, and the evicted entry is the
first one, in the deterministic iteration order of the underlying map, whose
`lastAccessedAt` is minimal. -/
theorem cache_eviction_lru_amended (maxSize ttl maxMem : Nat)
    (front : List (String × String × Nat)) (lst : String × String × Nat)
    (hlen : front.length = maxSize)
    (hpos : 1 ≤ maxSize)
    (hnodup : (itemsKeys (front ++ [lst])).Nodup)
    (hentry : ∀ x ∈ front ++ [lst], 5 * estimateSize x.2.1 ≤ maxMem)
    (hsum : itemsSizeSum (front ++ [lst]) ≤ (maxMem : Int))
    (hlru : ∀ km tm,
      specFirstMin (front.map (fun x => (x.1, x.2.2))) = some (km, tm) →
        km ≠ "") :
    ∃ c km tm,
      applySeq (insertOps (front ++ [lst]))
        (RenderCache.init maxSize ttl maxMem) = some c ∧
      specFirstMin (front.map (fun x => (x.1, x.2.2))) = some (km, tm) ∧
      (∀ p ∈ front.map (fun x => (x.1, x.2.2)), tm ≤ p.2) ∧
      c.cache.map Prod.fst = (itemsKeys front).erase km ++ [lst.1] ∧
      c.cache.length = maxSize := by
  have hkeysapp : itemsKeys (front ++ [lst]) = itemsKeys front ++ [lst.1] := by
    simp [itemsKeys]
  rw [hkeysapp] at hnodup
  have hnd := List.nodup_append.mp hnodup
  have hlstfresh : lst.1 ∉ itemsKeys front := by
    intro hc
    exact hnd.2.2 hc (List.mem_singleton_self lst.1)
  have hsumapp : itemsSizeSum (front ++ [lst]) =
      itemsSizeSum front + ((estimateSize lst.2.1 : Int) + 0) := by
    rw [itemsSizeSum_append]
    rfl
  have hlst0 : (0 : Int) ≤ (estimateSize lst.2.1 : Int) := by positivity
  have hfr0 : (0 : Int) ≤ itemsSizeSum front := itemsSizeSum_nonneg front
  have h1 : applySeq (insertOps front) (RenderCache.init maxSize ttl maxMem) =
      some ⟨entriesOf front, maxSize, ttl, maxMem, itemsSizeSum front⟩ := by
    have hstep := insert_batch_appends front (RenderCache.init maxSize ttl maxMem)
      (by intro x hx; simp [RenderCache.init])
      hnd.1
      (by intro x hx; exact hentry x (List.mem_append_left _ hx))
      (by simp only [RenderCache.init]; omega)
      (by simp only [RenderCache.init, List.length_nil]; omega)
    simpa [RenderCache.init] using hstep
  obtain ⟨f0, front', hfront⟩ : ∃ f0 front', front = f0 :: front' := by
    cases front with
    | nil => simp at hlen; omega
    | cons f0 front' => exact ⟨f0, front', rfl⟩
  obtain ⟨⟨km, tm⟩, hfm⟩ : ∃ m, specFirstMin
      (front.map (fun x => (x.1, x.2.2))) = some m := by
    rw [hfront, List.map_cons]
    exact specFirstMin_isSome _ _
  have hkm : km ≠ "" := hlru km tm hfm
  have hmin := specFirstMin_mem_min _ _ hfm
  have hkmkeys : km ∈ itemsKeys front := by
    have := hmin.1
    simp only [List.mem_map] at this
    obtain ⟨x, hx, hxe⟩ := this
    exact List.mem_map.mpr ⟨x, hx, congrArg Prod.fst hxe⟩
  have hlen1 : (entriesOf front).length = front.length := by
    simp [entriesOf]
  set c1 : RenderCache :=
    ⟨entriesOf front, maxSize, ttl, maxMem, itemsSizeSum front⟩ with hc1
  have hkmkeys1 : km ∈ c1.cache.map Prod.fst := by
    rw [hc1]
    dsimp only
    rw [entriesOf_map_fst]
    exact hkmkeys
  obtain ⟨ekm, hget⟩ := mapGet_isSome_of_mem km c1.cache hkmkeys1
  have hfmc : specFirstMin (c1.cache.map (fun p => (p.1, p.2.lastAccess))) =
      some (km, tm) := by
    rw [hc1]
    dsimp only
    rw [entriesOf_lastAccess]
    exact hfm
  have h2 := set_evicts_lru c1 lst.2.2 lst.1 lst.2.1 km tm ekm
    (by rw [hc1]; dsimp only; rw [hlen1]; exact hlen)
    (by rw [hc1]; exact hpos)
    (by rw [hc1]; dsimp only; omega)
    (by have := hentry lst (List.mem_append_right _ (List.mem_singleton_self lst));
        rw [hc1]; exact this)
    hfmc hkm hget
    (by rw [hc1]; dsimp only; rw [entriesOf_map_fst]; exact hlstfresh)
  have hfinal : applySeq (insertOps (front ++ [lst]))
      (RenderCache.init maxSize ttl maxMem) =
      c1.set lst.2.2 lst.1 lst.2.1 := by
    rw [show insertOps (front ++ [lst]) =
          insertOps front ++ insertOps [lst] from by simp [insertOps]]
    rw [applySeq_append_some _ _ _ _ h1]
    rfl
  have hdl := mapDelete_length_of_mem km c1.cache hkmkeys1
  rw [hc1] at hdl
  dsimp only at hdl
  refine ⟨_, km, tm, by rw [hfinal, h2], hfm, hmin.2, ?_, ?_⟩
  · dsimp only
    rw [List.map_append, mapDelete_map_fst]
    rw [entriesOf_map_fst]
    rfl
  · dsimp only
    rw [List.length_append]
    simp only [List.length_cons, List.length_nil]
    omega

/-- C3 amended witness: capacity 2, inserting keys a, b (b least recently
used), then c evicts exactly b. -/
theorem cache_eviction_lru_amended_witness :
    ([("a", "", 5), ("b", "", 3)] : List (String × String × Nat)).length = 2 ∧
    (itemsKeys ([("a", "", 5), ("b", "", 3)] ++ [("c", "", 7)])).Nodup ∧
    (∃ c km tm,
      applySeq (insertOps ([("a", "", 5), ("b", "", 3)] ++ [("c", "", 7)]))
        (RenderCache.init 2 1000 1000) = some c ∧
      specFirstMin
          (([("a", "", 5), ("b", "", 3)] : List (String × String × Nat)).map
            (fun x => (x.1, x.2.2))) = some (km, tm) ∧
      (∀ p ∈ (([("a", "", 5), ("b", "", 3)] : List (String × String × Nat)).map
          (fun x => (x.1, x.2.2))), tm ≤ p.2) ∧
      c.cache.map Prod.fst =
        (itemsKeys [("a", "", 5), ("b", "", 3)]).erase km ++ ["c"] ∧
      c.cache.length = 2) :=
  ⟨rfl, by decide,
   cache_eviction_lru_amended 2 1000 1000 [("a", "", 5), ("b", "", 3)]
     ("c", "", 7) rfl (by decide) (by decide) (by decide) (by decide)
     (by
       intro km tm hkm
       rw [show specFirstMin
             (([("a", "", 5), ("b", "", 3)] : List (String × String × Nat)).map
               (fun x => (x.1, x.2.2))) = some ("b", 3) from by decide] at hkm
       cases Option.some.inj hkm
       decide)⟩
